import Mathlib

/-!
Shallow embedding of `src/geo.py` (spherical geometry for the ISS tracker).

Python floats are modelled as real numbers; Python exceptions as
`Except String`.  Vectors are lists of reals, mirroring the source's use of
tuples of arbitrary length.  `round` is Python's round-half-to-even, and
list indexing supports Python's negative indices.
-/

namespace Geo

noncomputable section

/-- `R = 6371`, radius of the Earth in km (module constant of `geo.py`). -/
def R : ℝ := 6371

/-- `math.radians`: degrees to radians. -/
def radians (x : ℝ) : ℝ := x * Real.pi / 180

/-- `math.degrees`: radians to degrees. -/
def degrees (x : ℝ) : ℝ := x * 180 / Real.pi

/-- `magnitude(v)`: Euclidean norm of a vector of any length. -/
def magnitude (v : List ℝ) : ℝ := Real.sqrt ((v.map (fun a => a ^ 2)).sum)

/-- The sum computed by `dot_product` once the length check has passed. -/
def dot_value (v w : List ℝ) : ℝ := ((v.zip w).map (fun p => p.1 * p.2)).sum

/-- `dot_product(v, w)`: raises `ValueError` on a length mismatch. -/
def dot_product (v w : List ℝ) : Except String ℝ :=
  if v.length ≠ w.length then Except.error "Vectors must have the same length"
  else Except.ok (dot_value v w)

/-- The triple computed by `cross_product` once the length checks have passed. -/
def cross_value (v w : List ℝ) : List ℝ :=
  [v.getD 1 0 * w.getD 2 0 - v.getD 2 0 * w.getD 1 0,
   v.getD 2 0 * w.getD 0 0 - v.getD 0 0 * w.getD 2 0,
   v.getD 0 0 * w.getD 1 0 - v.getD 1 0 * w.getD 0 0]

/-- `cross_product(v, w)`: raises `ValueError` unless both lengths are 3. -/
def cross_product (v w : List ℝ) : Except String (List ℝ) :=
  if v.length ≠ 3 ∨ w.length ≠ 3 then Except.error "Vectors must have a length of 3"
  else Except.ok (cross_value v w)

/-- The triple `(x, y, z)` computed by `to_vector` once validation has passed. -/
def vec_value (lat long : ℝ) : List ℝ :=
  [R * Real.cos (radians lat) * Real.cos (radians long),
   R * Real.cos (radians lat) * Real.sin (radians long),
   R * Real.sin (radians lat)]

/-- `to_vector(lat, long)`: validates the ranges, then maps to Cartesian km. -/
def to_vector (lat long : ℝ) : Except String (List ℝ) :=
  if lat < -90 ∨ lat > 90 then Except.error "Latitude must be between -90 and 90"
  else if long < -180 ∨ long > 180 then Except.error "Longitude must be between -180 and 180"
  else Except.ok (vec_value lat long)

/-- Python's built-in `round` on a real argument: nearest integer, ties to even. -/
def pyRound (x : ℝ) : ℤ :=
  if Int.fract x < 1 / 2 then ⌊x⌋
  else if 1 / 2 < Int.fract x then ⌊x⌋ + 1
  else if ⌊x⌋ % 2 = 0 then ⌊x⌋ else ⌊x⌋ + 1

/-- Python's `round(x, 5)`: round to 5 decimal places, ties to even. -/
def pyRoundTo5 (x : ℝ) : ℝ := (pyRound (x * 100000) : ℝ) / 100000

/-- `math.acos`: raises `ValueError: math domain error` outside `[-1, 1]`. -/
def math_acos (x : ℝ) : Except String ℝ :=
  if x < -1 ∨ 1 < x then Except.error "math domain error"
  else Except.ok (Real.arccos x)

/-- `angle_vectors(v, w)`: length check, zero-magnitude convention, else
`acos(round(dot/(|v||w|), 5))`. -/
def angle_vectors (v w : List ℝ) : Except String ℝ :=
  if v.length ≠ w.length then Except.error "Vectors must have the same length"
  else if magnitude v = 0 ∨ magnitude w = 0 then Except.ok 0
  else do
    let d ← dot_product v w
    math_acos (pyRoundTo5 (d / (magnitude v * magnitude w)))

/-- `angle_between_coordinates`. -/
def angle_between_coordinates (lat1 long1 lat2 long2 : ℝ) : Except String ℝ := do
  let u ← to_vector lat1 long1
  let v ← to_vector lat2 long2
  angle_vectors u v

/-- `distance_between_coordinates`. -/
def distance_between_coordinates (lat1 long1 lat2 long2 : ℝ) : Except String ℝ := do
  let angle ← angle_between_coordinates lat1 long1 lat2 long2
  return angle * R

/-- `direction_between_coordinates`: tangent along the great circle, with the
north-referenced fallback when the magnitude is below 1. -/
def direction_between_coordinates (lat1 long1 lat2 long2 : ℝ) : Except String (List ℝ) := do
  let v ← to_vector lat1 long1
  let w ← to_vector lat2 long2
  let vw ← cross_product v w
  let result ← cross_product vw v
  if magnitude result < 1 then do
    let a ← cross_product v [0, 0, 1]
    cross_product a v
  else
    return result

/-- `bearing_between_coordinates`: unsigned bearing against the local north
tangent, mirrored to `360 - bearing` when `long2 < long1`. -/
def bearing_between_coordinates (lat1 long1 lat2 long2 : ℝ) : Except String ℝ := do
  let v ← to_vector lat1 long1
  let a ← cross_product v [0, 0, 1]
  let north_vector ← cross_product a v
  let w ← direction_between_coordinates lat1 long1 lat2 long2
  let ang ← angle_vectors w north_vector
  let bearing := degrees ang
  if long2 < long1 then return 360 - bearing else return bearing

/-- The 9-element cardinal list of `cardinal_from_angle` (the last entry
duplicates the first). -/
def cardinals : List String := ["N", "NE", "E", "SE", "S", "SW", "W", "NW", "N"]

/-- Python list indexing `l[i]`: negative indices count from the end;
`IndexError` outside `[-len(l), len(l))`. -/
def pyListGet (l : List String) (i : ℤ) : Except String String :=
  if 0 ≤ i ∧ i < (l.length : ℤ) then Except.ok (l.getD i.toNat "")
  else if -(l.length : ℤ) ≤ i ∧ i < 0 then Except.ok (l.getD ((l.length : ℤ) + i).toNat "")
  else Except.error "IndexError: list index out of range"

/-- `cardinal_from_angle(angle)`: `cardinals[round(angle / 45)]`. -/
def cardinal_from_angle (angle : ℝ) : Except String String :=
  pyListGet cardinals (pyRound (angle / 45))

/-- The local north tangent `cross(cross(v, (0,0,1)), v)` computed by
`bearing_between_coordinates` at the first coordinate. -/
def north_value (lat long : ℝ) : List ℝ :=
  cross_value (cross_value (vec_value lat long) [0, 0, 1]) (vec_value lat long)

end

/-! ### Basic lemmas about the embedded operations -/

theorem ok_bind {α β : Type} (a : α) (f : α → Except String β) :
    (Except.ok a : Except String α) >>= f = f a := rfl

theorem sum_sq_nonneg (v : List ℝ) : 0 ≤ (v.map (fun a => a ^ 2)).sum := by
  induction v with
  | nil => simp
  | cons a t ih => simpa using add_nonneg (sq_nonneg a) ih

theorem magnitude_nonneg (v : List ℝ) : 0 ≤ magnitude v := Real.sqrt_nonneg _

theorem magnitude_sq (v : List ℝ) : magnitude v ^ 2 = (v.map (fun a => a ^ 2)).sum :=
  Real.sq_sqrt (sum_sq_nonneg v)

theorem magnitude_eq_zero_iff (v : List ℝ) :
    magnitude v = 0 ↔ (v.map (fun a => a ^ 2)).sum = 0 := by
  unfold magnitude
  rw [Real.sqrt_eq_zero' ]
  constructor
  · intro h; exact le_antisymm h (sum_sq_nonneg v)
  · intro h; exact h.le

/-- Cauchy–Schwarz for equal-length lists of reals. -/
theorem dot_value_sq_le (v w : List ℝ) (h : v.length = w.length) :
    dot_value v w ^ 2 ≤ (v.map (fun a => a ^ 2)).sum * (w.map (fun a => a ^ 2)).sum := by
  induction v generalizing w with
  | nil =>
    have : w = [] := List.length_eq_zero.mp h.symm
    subst this; simp [dot_value]
  | cons a t ih =>
    cases w with
    | nil => simp at h
    | cons b u =>
      have hl : t.length = u.length := by simpa using h
      have ihs := ih u hl
      have hS := sum_sq_nonneg t
      have hT := sum_sq_nonneg u
      have expand : dot_value (a :: t) (b :: u) = a * b + dot_value t u := by
        simp [dot_value]
      rw [expand]
      simp only [List.map_cons, List.sum_cons]
      set D := dot_value t u with hD
      set S := (t.map (fun a => a ^ 2)).sum with hSd
      set T := (u.map (fun a => a ^ 2)).sum with hTd
      rcases eq_or_lt_of_le hT with hT0 | hTpos
      · have hD0 : D = 0 := by nlinarith [ihs]
        rw [hD0, ← hT0]
        nlinarith [mul_nonneg hS (sq_nonneg b), sq_nonneg a, sq_nonneg b]
      · nlinarith [sq_nonneg (a * T - b * D), mul_nonneg (sub_nonneg.mpr ihs) hTpos.le,
          mul_nonneg (sub_nonneg.mpr ihs) (sq_nonneg b), hTpos]

theorem dot_product_eq_ok (v w : List ℝ) (h : v.length = w.length) :
    dot_product v w = Except.ok (dot_value v w) := by
  unfold dot_product
  rw [if_neg]
  simp [h]

theorem cross_product_eq_ok (v w : List ℝ) (hv : v.length = 3) (hw : w.length = 3) :
    cross_product v w = Except.ok (cross_value v w) := by
  unfold cross_product
  rw [if_neg]
  simp [hv, hw]

theorem cross_value_length (v w : List ℝ) : (cross_value v w).length = 3 := rfl

/-! ### Bounds on Python's rounding -/

theorem pyRound_le (x : ℝ) : (pyRound x : ℝ) ≤ x + 1 / 2 := by
  have hf := Int.floor_add_fract x
  have h0 := Int.fract_nonneg x
  have h1 := Int.fract_lt_one x
  unfold pyRound
  split_ifs <;> push_cast <;> linarith

theorem le_pyRound (x : ℝ) : x - 1 / 2 ≤ (pyRound x : ℝ) := by
  have hf := Int.floor_add_fract x
  have h0 := Int.fract_nonneg x
  have h1 := Int.fract_lt_one x
  unfold pyRound
  split_ifs with ha hb <;> push_cast <;> first
    | linarith
    | (push_neg at ha; linarith)

/-- Evaluation of `pyRound` when `x` lies in `[k, k + 1/2)`. -/
theorem pyRound_eq_of_lt {x : ℝ} {k : ℤ} (h1 : (k : ℝ) ≤ x) (h2 : x < (k : ℝ) + 1 / 2) :
    pyRound x = k := by
  have hfl : ⌊x⌋ = k := by
    rw [Int.floor_eq_iff ]
    constructor
    · exact_mod_cast h1
    · push_cast; linarith
  have hfr : Int.fract x < 1 / 2 := by
    have := Int.floor_add_fract x
    rw [hfl] at this
    linarith
  unfold pyRound
  rw [if_pos hfr, hfl]

/-- Evaluation of `pyRound` when `x` lies in `(k - 1/2, k]`. -/
theorem pyRound_eq_of_gt {x : ℝ} {k : ℤ} (h1 : (k : ℝ) - 1 / 2 < x) (h2 : x ≤ (k : ℝ)) :
    pyRound x = k := by
  rcases eq_or_lt_of_le h2 with he | hlt
  · exact he ▸ pyRound_eq_of_lt (le_refl _) (by linarith)
  · have hfl : ⌊x⌋ = k - 1 := by
      rw [Int.floor_eq_iff ]
      push_cast
      constructor <;> linarith
    have hfr : 1 / 2 < Int.fract x := by
      have := Int.floor_add_fract x
      rw [hfl] at this
      push_cast at this
      linarith
    unfold pyRound
    rw [if_neg (by linarith), if_pos hfr, hfl]
    omega

theorem pyRoundTo5_mem {x : ℝ} (h1 : -1 ≤ x) (h2 : x ≤ 1) :
    -1 ≤ pyRoundTo5 x ∧ pyRoundTo5 x ≤ 1 := by
  have hle : (pyRound (x * 100000) : ℝ) ≤ x * 100000 + 1 / 2 := pyRound_le _
  have hge : x * 100000 - 1 / 2 ≤ (pyRound (x * 100000) : ℝ) := le_pyRound _
  have hub : pyRound (x * 100000) ≤ 100000 := by
    have h : pyRound (x * 100000) < 100001 := by exact_mod_cast (by linarith :
      (pyRound (x * 100000) : ℝ) < 100001)
    omega
  have hlb : -100000 ≤ pyRound (x * 100000) := by
    have h : -100001 < pyRound (x * 100000) := by exact_mod_cast (by linarith :
      (-100001 : ℝ) < (pyRound (x * 100000) : ℝ))
    omega
  constructor
  · unfold pyRoundTo5
    rw [le_div_iff (by norm_num : (0:ℝ) < 100000)]
    exact_mod_cast (by exact_mod_cast hlb : ((-100000 : ℤ) : ℝ) ≤ (pyRound (x * 100000) : ℝ))
  · unfold pyRoundTo5
    rw [div_le_one (by norm_num : (0:ℝ) < 100000)]
    exact_mod_cast hub

/-! ### Coordinate conversion -/

theorem to_vector_eq_ok {lat long : ℝ} (h1 : -90 ≤ lat) (h2 : lat ≤ 90)
    (h3 : -180 ≤ long) (h4 : long ≤ 180) :
    to_vector lat long = Except.ok (vec_value lat long) := by
  unfold to_vector
  rw [if_neg (by push_neg; constructor <;> linarith),
    if_neg (by push_neg; constructor <;> linarith)]

theorem magnitude_to_vector_value (lat long : ℝ) :
    magnitude (vec_value lat long) = 6371 := by
  unfold magnitude vec_value
  have hc : ((([R * Real.cos (radians lat) * Real.cos (radians long),
      R * Real.cos (radians lat) * Real.sin (radians long),
      R * Real.sin (radians lat)]).map (fun a => a ^ 2)).sum) = (6371 : ℝ) ^ 2 := by
    simp only [List.map_cons, List.map_nil, List.sum_cons, List.sum_nil]
    have ha := Real.sin_sq_add_cos_sq (radians lat)
    have hb := Real.sin_sq_add_cos_sq (radians long)
    unfold R
    linear_combination (6371 : ℝ) ^ 2 * (Real.cos (radians lat)) ^ 2 * hb +
      (6371 : ℝ) ^ 2 * ha
  rw [hc, Real.sqrt_sq (by norm_num)]

/-! ### The angle computation -/

theorem ratio_mem (v w : List ℝ) (h : v.length = w.length)
    (hv : magnitude v ≠ 0) (hw : magnitude w ≠ 0) :
    -1 ≤ dot_value v w / (magnitude v * magnitude w) ∧
      dot_value v w / (magnitude v * magnitude w) ≤ 1 := by
  have hvpos : 0 < magnitude v := (magnitude_nonneg v).lt_of_ne (Ne.symm hv)
  have hwpos : 0 < magnitude w := (magnitude_nonneg w).lt_of_ne (Ne.symm hw)
  have hprod : 0 < magnitude v * magnitude w := mul_pos hvpos hwpos
  have habs : |dot_value v w| ≤ magnitude v * magnitude w := by
    have h1 : dot_value v w ^ 2 ≤ (magnitude v * magnitude w) ^ 2 := by
      rw [mul_pow, magnitude_sq, magnitude_sq]
      exact dot_value_sq_le v w h
    calc |dot_value v w| = Real.sqrt (dot_value v w ^ 2) := (Real.sqrt_sq_eq_abs _).symm
      _ ≤ Real.sqrt ((magnitude v * magnitude w) ^ 2) := Real.sqrt_le_sqrt h1
      _ = |magnitude v * magnitude w| := Real.sqrt_sq_eq_abs _
      _ = magnitude v * magnitude w := abs_of_pos hprod
  rw [abs_le] at habs
  constructor
  · rw [le_div_iff₀ hprod]; linarith [habs.1]
  · rw [div_le_one hprod]; exact habs.2

/-- `angle_vectors` never raises on equal-length vectors: the result is in
`[0, π]`, is `0` in the zero-magnitude case, and is the arccos of the rounded
normalized dot product otherwise. -/
theorem angle_vectors_total (v w : List ℝ) (h : v.length = w.length) :
    ∃ a, angle_vectors v w = Except.ok a ∧ 0 ≤ a ∧ a ≤ Real.pi ∧
      ((magnitude v = 0 ∨ magnitude w = 0) → a = 0) ∧
      (magnitude v ≠ 0 → magnitude w ≠ 0 →
        a = Real.arccos (pyRoundTo5 (dot_value v w / (magnitude v * magnitude w)))) := by
  unfold angle_vectors
  rw [if_neg (by simp [h])]
  by_cases hm : magnitude v = 0 ∨ magnitude w = 0
  · rw [if_pos hm]
    exact ⟨0, rfl, le_refl 0, Real.pi_pos.le, fun _ => rfl,
      fun hv hw => absurd hm (by simp [hv, hw])⟩
  · push_neg at hm
    rw [if_neg (by push_neg; exact hm), dot_product_eq_ok v w h, ok_bind]
    obtain ⟨hr1, hr2⟩ := ratio_mem v w h hm.1 hm.2
    obtain ⟨hp1, hp2⟩ := pyRoundTo5_mem hr1 hr2
    unfold math_acos
    rw [if_neg (by push_neg; exact ⟨hp1, hp2⟩)]
    exact ⟨_, rfl, Real.arccos_nonneg _, Real.arccos_le_pi _,
      fun hc => absurd hc (by simp [hm.1, hm.2]), fun _ _ => rfl⟩

theorem magnitude_pair (a b : ℝ) : magnitude [a, b] = Real.sqrt (a ^ 2 + b ^ 2) := by
  unfold magnitude
  norm_num

theorem magnitude_one_zero : magnitude [(1 : ℝ), 0] = 1 := by
  rw [magnitude_pair]
  norm_num

theorem magnitude_zero_zero : magnitude [(0 : ℝ), 0] = 0 := by
  rw [magnitude_pair]
  norm_num

/-- Evaluation of `pyRound` at an exact tie whose floor is even. -/
theorem pyRound_tie_even {x : ℝ} {k : ℤ} (h : x = (k : ℝ) + 1 / 2) (he : k % 2 = 0) :
    pyRound x = k := by
  have hfl : ⌊x⌋ = k := by
    rw [Int.floor_eq_iff ]
    rw [h]
    push_cast
    constructor <;> linarith
  have hfr : Int.fract x = 1 / 2 := by
    unfold Int.fract
    rw [hfl, h]
    ring
  unfold pyRound
  rw [if_neg (by rw [hfr]; norm_num), if_neg (by rw [hfr]; norm_num), hfl, if_pos he]

/-! ### Python list indexing -/

theorem pyListGet_nonneg_eval {l : List String} {i : ℤ} (h1 : 0 ≤ i)
    (h2 : i < (l.length : ℤ)) :
    pyListGet l i = Except.ok (l.getD i.toNat "") := by
  unfold pyListGet
  rw [if_pos ⟨h1, h2⟩]

theorem pyListGet_neg_eval {l : List String} {i : ℤ} (h1 : -(l.length : ℤ) ≤ i)
    (h2 : i < 0) :
    pyListGet l i = Except.ok (l.getD ((l.length : ℤ) + i).toNat "") := by
  unfold pyListGet
  rw [if_neg (by omega), if_pos ⟨h1, h2⟩]

theorem pyListGet_error_iff (l : List String) (i : ℤ) :
    (∃ e, pyListGet l i = Except.error e) ↔ (i < -(l.length : ℤ) ∨ (l.length : ℤ) ≤ i) := by
  unfold pyListGet
  split_ifs with hA hB
  · constructor
    · rintro ⟨e, he⟩
      exact he.elim
    · intro h
      omega
  · constructor
    · rintro ⟨e, he⟩
      exact he.elim
    · intro h
      omega
  · constructor
    · intro _
      push_neg at hA hB
      omega
    · intro _
      exact ⟨_, rfl⟩

/-! ### Claim theorems: coordinate conversion and angles -/

/-- C5: `to_vector(lat, long)` raises an out-of-range error if and only if
`lat` is outside `[-90, 90]` or `long` is outside `[-180, 180]`; for every
input inside both ranges (boundaries included) it returns a vector without
error. -/
theorem to_vector_ok_iff_in_range (lat long : ℝ) :
    ((∃ u, to_vector lat long = Except.ok u) ↔
      (-90 ≤ lat ∧ lat ≤ 90 ∧ -180 ≤ long ∧ long ≤ 180)) ∧
    ((∃ e, to_vector lat long = Except.error e) ↔
      ¬(-90 ≤ lat ∧ lat ≤ 90 ∧ -180 ≤ long ∧ long ≤ 180)) := by
  unfold to_vector
  split_ifs with hA hB
  · have hnr : ¬(-90 ≤ lat ∧ lat ≤ 90 ∧ -180 ≤ long ∧ long ≤ 180) := by
      rintro ⟨a, b, c, d⟩
      rcases hA with h | h <;> linarith
    constructor
    · constructor
      · rintro ⟨u, hu⟩
        exact hu.elim
      · intro hr
        exact absurd hr hnr
    · exact ⟨fun _ => hnr, fun _ => ⟨_, rfl⟩⟩
  · have hnr : ¬(-90 ≤ lat ∧ lat ≤ 90 ∧ -180 ≤ long ∧ long ≤ 180) := by
      rintro ⟨a, b, c, d⟩
      rcases hB with h | h <;> linarith
    constructor
    · constructor
      · rintro ⟨u, hu⟩
        exact hu.elim
      · intro hr
        exact absurd hr hnr
    · exact ⟨fun _ => hnr, fun _ => ⟨_, rfl⟩⟩
  · push_neg at hA hB
    have hr : -90 ≤ lat ∧ lat ≤ 90 ∧ -180 ≤ long ∧ long ≤ 180 :=
      ⟨by linarith [hA.1], by linarith [hA.2], by linarith [hB.1], by linarith [hB.2]⟩
    constructor
    · exact ⟨fun _ => hr, fun _ => ⟨_, rfl⟩⟩
    · constructor
      · rintro ⟨e, he⟩
        exact he.elim
      · intro hn
        exact absurd hr hn

/-- C6: for every valid `(lat, long)`, the vector returned by `to_vector`
has magnitude exactly `R = 6371` (real arithmetic). -/
theorem magnitude_to_vector (lat long : ℝ) (h1 : -90 ≤ lat) (h2 : lat ≤ 90)
    (h3 : -180 ≤ long) (h4 : long ≤ 180) :
    ∃ u, to_vector lat long = Except.ok u ∧ magnitude u = 6371 :=
  ⟨_, to_vector_eq_ok h1 h2 h3 h4, magnitude_to_vector_value lat long⟩

theorem magnitude_to_vector_witness :
    ∃ u, to_vector 0 0 = Except.ok u ∧ magnitude u = 6371 :=
  magnitude_to_vector 0 0 (by norm_num) (by norm_num) (by norm_num) (by norm_num)

/-- C4: for equal-length vectors of nonzero magnitude, the argument passed to
the inverse cosine — the normalized dot product rounded to 5 decimal places —
lies in `[-1, 1]`, so the `acos` domain-error branch is unreachable and
`angle_vectors` returns a value. -/
theorem angle_vectors_acos_arg_mem (v w : List ℝ) (h : v.length = w.length)
    (hv : magnitude v ≠ 0) (hw : magnitude w ≠ 0) :
    (-1 ≤ pyRoundTo5 (dot_value v w / (magnitude v * magnitude w)) ∧
      pyRoundTo5 (dot_value v w / (magnitude v * magnitude w)) ≤ 1) ∧
    angle_vectors v w = Except.ok
      (Real.arccos (pyRoundTo5 (dot_value v w / (magnitude v * magnitude w)))) := by
  obtain ⟨hr1, hr2⟩ := ratio_mem v w h hv hw
  obtain ⟨a, ha, _, _, _, hchar⟩ := angle_vectors_total v w h
  refine ⟨pyRoundTo5_mem hr1 hr2, ?_⟩
  rw [ha, hchar hv hw]

theorem angle_vectors_acos_arg_mem_witness :
    (-1 ≤ pyRoundTo5 (dot_value [(1 : ℝ), 0] [(1 : ℝ), 0] /
        (magnitude [(1 : ℝ), 0] * magnitude [(1 : ℝ), 0])) ∧
      pyRoundTo5 (dot_value [(1 : ℝ), 0] [(1 : ℝ), 0] /
        (magnitude [(1 : ℝ), 0] * magnitude [(1 : ℝ), 0])) ≤ 1) ∧
    angle_vectors [(1 : ℝ), 0] [(1 : ℝ), 0] = Except.ok
      (Real.arccos (pyRoundTo5 (dot_value [(1 : ℝ), 0] [(1 : ℝ), 0] /
        (magnitude [(1 : ℝ), 0] * magnitude [(1 : ℝ), 0])))) :=
  angle_vectors_acos_arg_mem [(1 : ℝ), 0] [(1 : ℝ), 0] rfl
    (by rw [magnitude_one_zero]; norm_num) (by rw [magnitude_one_zero]; norm_num)

/-- C7: on equal-length vectors, `angle_vectors` returns the default `0`
(without error) exactly in the zero-magnitude case; with both magnitudes
nonzero it instead goes through the inverse-cosine path. -/
theorem angle_vectors_zero_default (v w : List ℝ) (h : v.length = w.length) :
    ((magnitude v = 0 ∨ magnitude w = 0) → angle_vectors v w = Except.ok 0) ∧
    (magnitude v ≠ 0 → magnitude w ≠ 0 → angle_vectors v w = Except.ok
      (Real.arccos (pyRoundTo5 (dot_value v w / (magnitude v * magnitude w))))) := by
  obtain ⟨a, ha, _, _, hzero, hchar⟩ := angle_vectors_total v w h
  constructor
  · intro hm
    rw [ha, hzero hm]
  · intro hv hw
    rw [ha, hchar hv hw]

theorem angle_vectors_zero_default_witness :
    angle_vectors [(0 : ℝ), 0] [(1 : ℝ), 0] = Except.ok 0 :=
  (angle_vectors_zero_default [(0 : ℝ), 0] [(1 : ℝ), 0] rfl).1
    (Or.inl magnitude_zero_zero)

/-! ### Claim theorems: cardinal directions -/

/-- C8: for every angle in `[0, 360]`, `cardinal_from_angle` returns the
element at index `round(angle / 45)` of the 9-element cardinal sequence;
in particular 0 ↦ N, 90 ↦ E, 270 ↦ W, 315 ↦ NW. -/
theorem cardinal_from_angle_spec :
    (∀ angle : ℝ, 0 ≤ angle → angle ≤ 360 →
      0 ≤ pyRound (angle / 45) ∧ pyRound (angle / 45) < 9 ∧
      cardinal_from_angle angle =
        Except.ok (cardinals.getD (pyRound (angle / 45)).toNat "")) ∧
    cardinal_from_angle 0 = Except.ok "N" ∧
    cardinal_from_angle 90 = Except.ok "E" ∧
    cardinal_from_angle 270 = Except.ok "W" ∧
    cardinal_from_angle 315 = Except.ok "NW" := by
  have hmain : ∀ angle : ℝ, 0 ≤ angle → angle ≤ 360 →
      0 ≤ pyRound (angle / 45) ∧ pyRound (angle / 45) < 9 ∧
      cardinal_from_angle angle =
        Except.ok (cardinals.getD (pyRound (angle / 45)).toNat "") := by
    intro angle h1 h2
    have hx1 : 0 ≤ angle / 45 := div_nonneg h1 (by norm_num)
    have hx2 : angle / 45 ≤ 8 := by
      rw [div_le_iff₀ (by norm_num : (0:ℝ) < 45)]
      linarith
    have hlb : 0 ≤ pyRound (angle / 45) := by
      have h := le_pyRound (angle / 45)
      have : (-1 : ℝ) < (pyRound (angle / 45) : ℝ) := by linarith
      have : (-1 : ℤ) < pyRound (angle / 45) := by exact_mod_cast this
      omega
    have hub : pyRound (angle / 45) < 9 := by
      have h := pyRound_le (angle / 45)
      have : (pyRound (angle / 45) : ℝ) < 9 := by linarith
      exact_mod_cast this
    refine ⟨hlb, hub, ?_⟩
    unfold cardinal_from_angle
    rw [pyListGet_nonneg_eval hlb (by simpa [cardinals] using hub)]
  refine ⟨hmain, ?_, ?_, ?_, ?_⟩
  · have hz : pyRound ((0 : ℝ) / 45) = 0 := pyRound_eq_of_lt (by norm_num) (by norm_num)
    unfold cardinal_from_angle
    rw [hz, pyListGet_nonneg_eval (by norm_num) (by norm_num [cardinals])]
    rfl
  · have hz : pyRound ((90 : ℝ) / 45) = 2 := pyRound_eq_of_lt (by norm_num) (by norm_num)
    unfold cardinal_from_angle
    rw [hz, pyListGet_nonneg_eval (by norm_num) (by norm_num [cardinals])]
    rfl
  · have hz : pyRound ((270 : ℝ) / 45) = 6 := pyRound_eq_of_lt (by norm_num) (by norm_num)
    unfold cardinal_from_angle
    rw [hz, pyListGet_nonneg_eval (by norm_num) (by norm_num [cardinals])]
    rfl
  · have hz : pyRound ((315 : ℝ) / 45) = 7 := pyRound_eq_of_lt (by norm_num) (by norm_num)
    unfold cardinal_from_angle
    rw [hz, pyListGet_nonneg_eval (by norm_num) (by norm_num [cardinals])]
    rfl

theorem cardinal_from_angle_spec_witness :
    0 ≤ pyRound ((45 : ℝ) / 45) ∧ pyRound ((45 : ℝ) / 45) < 9 ∧
    cardinal_from_angle 45 =
      Except.ok (cardinals.getD (pyRound ((45 : ℝ) / 45)).toNat "") :=
  cardinal_from_angle_spec.1 45 (by norm_num) (by norm_num)

/-- C10: every angle in `(-22.5, 0)` yields `N` without error, because
`round(angle / 45)` evaluates to index 0. -/
theorem cardinal_from_angle_neg_small (angle : ℝ) (h1 : -22.5 < angle) (h2 : angle < 0) :
    pyRound (angle / 45) = 0 ∧ cardinal_from_angle angle = Except.ok "N" := by
  have hz : pyRound (angle / 45) = 0 := by
    apply pyRound_eq_of_gt
    · push_cast
      rw [lt_div_iff₀ (by norm_num : (0:ℝ) < 45)]
      linarith
    · push_cast
      rw [div_le_iff₀ (by norm_num : (0:ℝ) < 45)]
      linarith
  refine ⟨hz, ?_⟩
  unfold cardinal_from_angle
  rw [hz, pyListGet_nonneg_eval (le_refl 0) (by norm_num [cardinals])]
  rfl

theorem cardinal_from_angle_neg_small_witness :
    pyRound ((-10 : ℝ) / 45) = 0 ∧ cardinal_from_angle (-10) = Except.ok "N" :=
  cardinal_from_angle_neg_small (-10) (by norm_num) (by norm_num)

/-- C2 counterexample: `-45` is outside `[0, 360]`, yet `cardinal_from_angle`
returns `N` (Python's negative indexing hits the last list element) instead
of failing. -/
theorem cardinal_from_angle_neg45 :
    cardinal_from_angle (-45) = Except.ok "N" ∧ ((-45 : ℝ) < 0 ∨ 360 < (-45 : ℝ)) := by
  constructor
  · have hz : pyRound ((-45 : ℝ) / 45) = -1 := pyRound_eq_of_lt (by norm_num) (by norm_num)
    unfold cardinal_from_angle
    rw [hz, pyListGet_neg_eval (by norm_num [cardinals]) (by norm_num)]
    rfl
  · left
    norm_num

/-- C2 amended: `cardinal_from_angle` fails exactly for angles above 382.5
or at or below -427.5; within `[-427.5 + ε, 382.5]` (including everything in
`[0, 360]` and many angles outside it) it returns a cardinal label. -/
theorem cardinal_from_angle_error_iff (angle : ℝ) :
    (∃ e, cardinal_from_angle angle = Except.error e) ↔
      (382.5 < angle ∨ angle ≤ -427.5) := by
  unfold cardinal_from_angle
  rw [pyListGet_error_iff]
  have hcl : (cardinals.length : ℤ) = 9 := by norm_num [cardinals]
  rw [hcl]
  constructor
  · intro h
    by_contra hc
    push_neg at hc
    obtain ⟨hc1, hc2⟩ := hc
    have hin : -9 ≤ pyRound (angle / 45) ∧ pyRound (angle / 45) < 9 := by
      constructor
      · have hx : -9.5 < angle / 45 := by
          rw [lt_div_iff₀ (by norm_num : (0:ℝ) < 45)]
          linarith
        have h := le_pyRound (angle / 45)
        have : (-10 : ℝ) < (pyRound (angle / 45) : ℝ) := by linarith
        have : (-10 : ℤ) < pyRound (angle / 45) := by exact_mod_cast this
        omega
      · rcases eq_or_lt_of_le hc1 with he | hlt
        · have hx : angle / 45 = (8 : ℤ) + 1 / 2 := by
            rw [he]
            norm_num
          have := pyRound_tie_even hx (by norm_num)
          omega
        · have hx : angle / 45 < 8.5 := by
            rw [div_lt_iff₀ (by norm_num : (0:ℝ) < 45)]
            linarith
          have h := pyRound_le (angle / 45)
          have : (pyRound (angle / 45) : ℝ) < 9 := by linarith
          exact_mod_cast this
    omega
  · intro h
    rcases h with h | h
    · right
      have hx : 8.5 < angle / 45 := by
        rw [lt_div_iff₀ (by norm_num : (0:ℝ) < 45)]
        linarith
      have hle := le_pyRound (angle / 45)
      have : (8 : ℝ) < (pyRound (angle / 45) : ℝ) := by linarith
      have : (8 : ℤ) < pyRound (angle / 45) := by exact_mod_cast this
      omega
    · left
      rcases eq_or_lt_of_le h with he | hlt
      · have hx : angle / 45 = ((-10 : ℤ) : ℝ) + 1 / 2 := by
          rw [he]
          norm_num
        have := pyRound_tie_even hx (by norm_num)
        omega
      · have hx : angle / 45 < -9.5 := by
          rw [div_lt_iff₀ (by norm_num : (0:ℝ) < 45)]
          linarith
        have hle := pyRound_le (angle / 45)
        have : (pyRound (angle / 45) : ℝ) < -9 := by linarith
        have : pyRound (angle / 45) < -9 := by exact_mod_cast this
        omega

/-! ### The bearing computation -/

theorem pure_eq_ok {α : Type} (a : α) : (pure a : Except String α) = Except.ok a := rfl

theorem vec_value_length (lat long : ℝ) : (vec_value lat long).length = 3 := rfl

theorem north_value_length (lat long : ℝ) : (north_value lat long).length = 3 := rfl

/-- For valid inputs, `direction_between_coordinates` returns a 3-vector. -/
theorem direction_ok (lat1 long1 lat2 long2 : ℝ)
    (h1 : -90 ≤ lat1) (h2 : lat1 ≤ 90) (h3 : -180 ≤ long1) (h4 : long1 ≤ 180)
    (h5 : -90 ≤ lat2) (h6 : lat2 ≤ 90) (h7 : -180 ≤ long2) (h8 : long2 ≤ 180) :
    ∃ w, direction_between_coordinates lat1 long1 lat2 long2 = Except.ok w ∧
      w.length = 3 := by
  unfold direction_between_coordinates
  rw [to_vector_eq_ok h1 h2 h3 h4]
  simp only [ok_bind]
  rw [to_vector_eq_ok h5 h6 h7 h8]
  simp only [ok_bind]
  rw [cross_product_eq_ok (vec_value lat1 long1) (vec_value lat2 long2) rfl rfl]
  simp only [ok_bind]
  rw [cross_product_eq_ok (cross_value (vec_value lat1 long1) (vec_value lat2 long2))
    (vec_value lat1 long1) rfl rfl]
  simp only [ok_bind]
  split_ifs with hm
  · rw [cross_product_eq_ok (vec_value lat1 long1) [0, 0, 1] rfl rfl]
    simp only [ok_bind]
    rw [cross_product_eq_ok (cross_value (vec_value lat1 long1) [0, 0, 1])
      (vec_value lat1 long1) rfl rfl]
    exact ⟨_, rfl, rfl⟩
  · exact ⟨_, rfl, rfl⟩

/-- Unfolding of `bearing_between_coordinates` given the direction vector and
the angle against the local north tangent. -/
theorem bearing_unfold (lat1 long1 lat2 long2 : ℝ) {w : List ℝ} {a : ℝ}
    (h1 : -90 ≤ lat1) (h2 : lat1 ≤ 90) (h3 : -180 ≤ long1) (h4 : long1 ≤ 180)
    (hdir : direction_between_coordinates lat1 long1 lat2 long2 = Except.ok w)
    (ha : angle_vectors w (north_value lat1 long1) = Except.ok a) :
    bearing_between_coordinates lat1 long1 lat2 long2 =
      Except.ok (if long2 < long1 then 360 - degrees a else degrees a) := by
  unfold bearing_between_coordinates
  rw [to_vector_eq_ok h1 h2 h3 h4]
  simp only [ok_bind]
  rw [cross_product_eq_ok (vec_value lat1 long1) [0, 0, 1] rfl rfl]
  simp only [ok_bind]
  rw [show cross_product (cross_value (vec_value lat1 long1) [0, 0, 1]) (vec_value lat1 long1)
      = Except.ok (north_value lat1 long1) from
    cross_product_eq_ok (cross_value (vec_value lat1 long1) [0, 0, 1]) (vec_value lat1 long1)
      rfl rfl]
  simp only [ok_bind]
  rw [hdir]
  simp only [ok_bind]
  rw [ha]
  simp only [ok_bind]
  by_cases hl : long2 < long1
  · rw [if_pos hl, if_pos hl, pure_eq_ok]
  · rw [if_neg hl, if_neg hl, pure_eq_ok]

theorem degrees_nonneg {a : ℝ} (h : 0 ≤ a) : 0 ≤ degrees a := by
  unfold degrees
  positivity

theorem degrees_le_180 {a : ℝ} (h : a ≤ Real.pi) : degrees a ≤ 180 := by
  unfold degrees
  rw [div_le_iff₀ Real.pi_pos]
  nlinarith [Real.pi_pos]

theorem cross_value_three (a b c d e f : ℝ) :
    cross_value [a, b, c] [d, e, f] = [b * f - c * e, c * d - a * f, a * e - b * d] := by
  unfold cross_value
  simp [List.getD]

theorem dot_value_three (a b c d e f : ℝ) :
    dot_value [a, b, c] [d, e, f] = a * d + b * e + c * f := by
  unfold dot_value
  simp [List.zip_cons_cons]
  ring

theorem magnitude_triple (a b c : ℝ) :
    magnitude [a, b, c] = Real.sqrt (a ^ 2 + b ^ 2 + c ^ 2) := by
  unfold magnitude
  simp only [List.map_cons, List.map_nil, List.sum_cons, List.sum_nil]
  ring_nf

theorem magnitude_zero_triple : magnitude [(0 : ℝ), 0, 0] = 0 := by
  rw [magnitude_triple]
  simp [Real.sqrt_zero]

theorem degrees_zero : degrees 0 = 0 := by
  unfold degrees
  rw [zero_mul, zero_div]

/-- At a pole the local north tangent vanishes. -/
theorem north_value_pole {lat1 : ℝ} (hc : Real.cos (radians lat1) = 0) (long1 : ℝ) :
    north_value lat1 long1 = [0, 0, 0] := by
  unfold north_value vec_value
  rw [cross_value_three, cross_value_three, hc]
  norm_num

/-- Shared analysis: when `cos(radians lat1) = 0` (the poles), the bearing is
`360` for `long2 < long1` and `0` otherwise. -/
theorem pole_analysis (lat1 long1 lat2 long2 : ℝ) (hc : Real.cos (radians lat1) = 0)
    (h1 : -90 ≤ lat1) (h2 : lat1 ≤ 90) (h3 : -180 ≤ long1) (h4 : long1 ≤ 180)
    (h5 : -90 ≤ lat2) (h6 : lat2 ≤ 90) (h7 : -180 ≤ long2) (h8 : long2 ≤ 180) :
    north_value lat1 long1 = [0, 0, 0] ∧
    (∃ w, direction_between_coordinates lat1 long1 lat2 long2 = Except.ok w ∧
      angle_vectors w (north_value lat1 long1) = Except.ok 0) ∧
    bearing_between_coordinates lat1 long1 lat2 long2 =
      Except.ok (if long2 < long1 then 360 else 0) := by
  have hn := north_value_pole hc long1
  obtain ⟨w, hdir, hwlen⟩ := direction_ok lat1 long1 lat2 long2 h1 h2 h3 h4 h5 h6 h7 h8
  obtain ⟨a, ha, -, -, hzero, -⟩ := angle_vectors_total w (north_value lat1 long1)
    (by rw [hwlen, north_value_length])
  have ha0 : a = 0 := hzero (Or.inr (by rw [hn]; exact magnitude_zero_triple))
  subst ha0
  refine ⟨hn, ⟨w, hdir, ha⟩, ?_⟩
  rw [bearing_unfold lat1 long1 lat2 long2 h1 h2 h3 h4 hdir ha, degrees_zero]
  by_cases hl : long2 < long1
  · rw [if_pos hl, if_pos hl, sub_zero]
  · rw [if_neg hl, if_neg hl]

theorem cos_radians_90 : Real.cos (radians 90) = 0 := by
  rw [show radians 90 = Real.pi / 2 from by unfold radians; ring, Real.cos_pi_div_two]

theorem cos_radians_neg_90 : Real.cos (radians (-90)) = 0 := by
  rw [show radians (-90) = -(Real.pi / 2) from by unfold radians; ring, Real.cos_neg,
    Real.cos_pi_div_two]

/-- C9: from a pole (`lat1 = ±90`) the north tangent is the zero vector, the
unsigned bearing is 0 by the zero-magnitude convention, and the bearing is
`360` exactly when `long2 < long1` and `0` otherwise, for every valid target. -/
theorem bearing_at_pole (lat1 long1 lat2 long2 : ℝ) (hpole : lat1 = 90 ∨ lat1 = -90)
    (h3 : -180 ≤ long1) (h4 : long1 ≤ 180) (h5 : -90 ≤ lat2) (h6 : lat2 ≤ 90)
    (h7 : -180 ≤ long2) (h8 : long2 ≤ 180) :
    north_value lat1 long1 = [0, 0, 0] ∧
    (∃ w, direction_between_coordinates lat1 long1 lat2 long2 = Except.ok w ∧
      angle_vectors w (north_value lat1 long1) = Except.ok 0) ∧
    bearing_between_coordinates lat1 long1 lat2 long2 =
      Except.ok (if long2 < long1 then 360 else 0) := by
  have hc : Real.cos (radians lat1) = 0 := by
    rcases hpole with h | h <;> rw [h]
    · exact cos_radians_90
    · exact cos_radians_neg_90
  have h1 : (-90 : ℝ) ≤ lat1 := by rcases hpole with h | h <;> rw [h] <;> norm_num
  have h2 : lat1 ≤ 90 := by rcases hpole with h | h <;> rw [h] <;> norm_num
  exact pole_analysis lat1 long1 lat2 long2 hc h1 h2 h3 h4 h5 h6 h7 h8

theorem bearing_at_pole_witness :
    north_value 90 0 = [0, 0, 0] ∧
    (∃ w, direction_between_coordinates 90 0 0 0 = Except.ok w ∧
      angle_vectors w (north_value 90 0) = Except.ok 0) ∧
    bearing_between_coordinates 90 0 0 0 =
      Except.ok (if (0 : ℝ) < 0 then 360 else 0) :=
  bearing_at_pole 90 0 0 0 (Or.inl rfl) (by norm_num) (by norm_num) (by norm_num)
    (by norm_num) (by norm_num) (by norm_num)

/-- C1 counterexample: from the north pole toward `(45, -90)` the returned
bearing is exactly `360`, which is not in the half-open interval `[0, 360)`. -/
theorem bearing_reaches_360 :
    bearing_between_coordinates 90 0 45 (-90) = Except.ok 360 ∧ ¬((360 : ℝ) < 360) := by
  constructor
  · have h := (pole_analysis 90 0 45 (-90) cos_radians_90 (by norm_num) (by norm_num)
      (by norm_num) (by norm_num) (by norm_num) (by norm_num) (by norm_num)
      (by norm_num)).2.2
    rw [if_pos (by norm_num : (-90 : ℝ) < 0)] at h
    exact h
  · norm_num

/-- C1 amended: for every valid input the returned bearing lies in the closed
interval `[0, 360]` (the right endpoint is attained, e.g. from a pole with
`long2 < long1`). -/
theorem bearing_mem_Icc (lat1 long1 lat2 long2 : ℝ)
    (h1 : -90 ≤ lat1) (h2 : lat1 ≤ 90) (h3 : -180 ≤ long1) (h4 : long1 ≤ 180)
    (h5 : -90 ≤ lat2) (h6 : lat2 ≤ 90) (h7 : -180 ≤ long2) (h8 : long2 ≤ 180) :
    ∃ b, bearing_between_coordinates lat1 long1 lat2 long2 = Except.ok b ∧
      0 ≤ b ∧ b ≤ 360 := by
  obtain ⟨w, hdir, hwlen⟩ := direction_ok lat1 long1 lat2 long2 h1 h2 h3 h4 h5 h6 h7 h8
  obtain ⟨a, ha, ha0, hapi, -, -⟩ := angle_vectors_total w (north_value lat1 long1)
    (by rw [hwlen, north_value_length])
  refine ⟨_, bearing_unfold lat1 long1 lat2 long2 h1 h2 h3 h4 hdir ha, ?_, ?_⟩ <;>
  · have d0 := degrees_nonneg ha0
    have d180 := degrees_le_180 hapi
    split_ifs <;> linarith

theorem bearing_mem_Icc_witness :
    ∃ b, bearing_between_coordinates 0 0 0 90 = Except.ok b ∧ 0 ≤ b ∧ b ≤ 360 :=
  bearing_mem_Icc 0 0 0 90 (by norm_num) (by norm_num) (by norm_num) (by norm_num)
    (by norm_num) (by norm_num) (by norm_num) (by norm_num)

/-! ### Concrete evaluation at (45, 0) → (45, ±90) -/

theorem sqrt_two_mul_self : Real.sqrt 2 * Real.sqrt 2 = 2 :=
  Real.mul_self_sqrt (by norm_num)

theorem vec_value_45_0 :
    vec_value 45 0 = [R * (Real.sqrt 2 / 2), 0, R * (Real.sqrt 2 / 2)] := by
  unfold vec_value
  rw [show radians 45 = Real.pi / 4 from by unfold radians; ring,
    show radians 0 = 0 from by unfold radians; ring,
    Real.cos_pi_div_four, Real.sin_pi_div_four, Real.cos_zero, Real.sin_zero]
  norm_num

theorem vec_value_45_90 :
    vec_value 45 90 = [0, R * (Real.sqrt 2 / 2), R * (Real.sqrt 2 / 2)] := by
  unfold vec_value
  rw [show radians 45 = Real.pi / 4 from by unfold radians; ring,
    show radians 90 = Real.pi / 2 from by unfold radians; ring,
    Real.cos_pi_div_four, Real.sin_pi_div_four, Real.cos_pi_div_two, Real.sin_pi_div_two]
  norm_num

theorem vec_value_45_neg90 :
    vec_value 45 (-90) = [0, -(R * (Real.sqrt 2 / 2)), R * (Real.sqrt 2 / 2)] := by
  unfold vec_value
  rw [show radians 45 = Real.pi / 4 from by unfold radians; ring,
    show radians (-90) = -(Real.pi / 2) from by unfold radians; ring,
    Real.cos_pi_div_four, Real.sin_pi_div_four, Real.cos_neg, Real.sin_neg,
    Real.cos_pi_div_two, Real.sin_pi_div_two]
  norm_num

theorem north_value_45_0 : north_value 45 0 = [-(R ^ 2 / 2), 0, R ^ 2 / 2] := by
  unfold north_value
  rw [vec_value_45_0, cross_value_three, cross_value_three]
  refine List.cons_eq_cons.mpr ⟨?_, List.cons_eq_cons.mpr ⟨?_, List.cons_eq_cons.mpr
    ⟨?_, rfl⟩⟩⟩
  · linear_combination (-(R ^ 2) / 4) * sqrt_two_mul_self
  · ring
  · linear_combination (R ^ 2 / 4) * sqrt_two_mul_self

theorem res_45_90 :
    cross_value (cross_value (vec_value 45 0) (vec_value 45 90)) (vec_value 45 0) =
      [-(R ^ 3 * Real.sqrt 2 / 4), R ^ 3 * Real.sqrt 2 / 2, R ^ 3 * Real.sqrt 2 / 4] := by
  rw [vec_value_45_0, vec_value_45_90, cross_value_three, cross_value_three]
  refine List.cons_eq_cons.mpr ⟨?_, List.cons_eq_cons.mpr ⟨?_, List.cons_eq_cons.mpr
    ⟨?_, rfl⟩⟩⟩
  · linear_combination (-(R ^ 3 * Real.sqrt 2) / 8) * sqrt_two_mul_self
  · linear_combination (R ^ 3 * Real.sqrt 2 / 4) * sqrt_two_mul_self
  · linear_combination (R ^ 3 * Real.sqrt 2 / 8) * sqrt_two_mul_self

theorem res_45_neg90 :
    cross_value (cross_value (vec_value 45 0) (vec_value 45 (-90))) (vec_value 45 0) =
      [-(R ^ 3 * Real.sqrt 2 / 4), -(R ^ 3 * Real.sqrt 2 / 2), R ^ 3 * Real.sqrt 2 / 4] := by
  rw [vec_value_45_0, vec_value_45_neg90, cross_value_three, cross_value_three]
  refine List.cons_eq_cons.mpr ⟨?_, List.cons_eq_cons.mpr ⟨?_, List.cons_eq_cons.mpr
    ⟨?_, rfl⟩⟩⟩
  · linear_combination (-(R ^ 3 * Real.sqrt 2) / 8) * sqrt_two_mul_self
  · linear_combination (-(R ^ 3 * Real.sqrt 2) / 4) * sqrt_two_mul_self
  · linear_combination (R ^ 3 * Real.sqrt 2 / 8) * sqrt_two_mul_self

theorem mag_res_45_90 :
    magnitude [-(R ^ 3 * Real.sqrt 2 / 4), R ^ 3 * Real.sqrt 2 / 2,
      R ^ 3 * Real.sqrt 2 / 4] = Real.sqrt (3 * R ^ 6 / 4) := by
  rw [magnitude_triple]
  congr 1
  linear_combination (3 * R ^ 6 / 8) * sqrt_two_mul_self

theorem mag_res_45_neg90 :
    magnitude [-(R ^ 3 * Real.sqrt 2 / 4), -(R ^ 3 * Real.sqrt 2 / 2),
      R ^ 3 * Real.sqrt 2 / 4] = Real.sqrt (3 * R ^ 6 / 4) := by
  rw [magnitude_triple]
  congr 1
  linear_combination (3 * R ^ 6 / 8) * sqrt_two_mul_self

theorem mag_north_45_0 :
    magnitude [-(R ^ 2 / 2), 0, R ^ 2 / 2] = Real.sqrt (R ^ 4 / 2) := by
  rw [magnitude_triple]
  congr 1
  ring

theorem R_pos : (0 : ℝ) < R := by unfold R; norm_num

theorem ratio_45 :
    R ^ 5 * Real.sqrt 2 / 4 / (Real.sqrt (3 * R ^ 6 / 4) * Real.sqrt (R ^ 4 / 2)) =
      (Real.sqrt 3)⁻¹ := by
  have hd : (0 : ℝ) < R ^ 5 * Real.sqrt 2 / 4 :=
    div_pos (mul_pos (pow_pos R_pos 5) (Real.sqrt_pos.mpr (by norm_num))) (by norm_num)
  have hprod : Real.sqrt (3 * R ^ 6 / 4) * Real.sqrt (R ^ 4 / 2) =
      Real.sqrt 3 * (R ^ 5 * Real.sqrt 2 / 4) := by
    rw [← Real.sqrt_mul (by positivity)]
    rw [show 3 * R ^ 6 / 4 * (R ^ 4 / 2) = 3 * (R ^ 5 * Real.sqrt 2 / 4) ^ 2 from by
      linear_combination (-(3 * R ^ 10 / 16)) * sqrt_two_mul_self]
    rw [Real.sqrt_mul (by norm_num : (0 : ℝ) ≤ 3), Real.sqrt_sq hd.le]
  rw [hprod, mul_comm (Real.sqrt 3) (R ^ 5 * Real.sqrt 2 / 4), ← div_div,
    div_self (ne_of_gt hd), one_div]

theorem pyRoundTo5_inv_sqrt3 : pyRoundTo5 (Real.sqrt 3)⁻¹ = 57735 / 100000 := by
  have s3pos : (0 : ℝ) < Real.sqrt 3 := Real.sqrt_pos.mpr (by norm_num)
  have s3l : (1.7320508 : ℝ) < Real.sqrt 3 := (Real.lt_sqrt (by norm_num)).mpr (by norm_num)
  have s3u : Real.sqrt 3 < 1.7320509 := (Real.sqrt_lt' (by norm_num)).mpr (by norm_num)
  have hk : pyRound ((Real.sqrt 3)⁻¹ * 100000) = 57735 := by
    apply pyRound_eq_of_lt
    · push_cast
      rw [inv_mul_eq_div, le_div_iff₀ s3pos]
      nlinarith [s3u]
    · push_cast
      rw [inv_mul_eq_div, div_lt_iff₀ s3pos]
      nlinarith [s3l]
  unfold pyRoundTo5
  rw [hk]
  norm_num

theorem direction_45_90 :
    direction_between_coordinates 45 0 45 90 = Except.ok
      [-(R ^ 3 * Real.sqrt 2 / 4), R ^ 3 * Real.sqrt 2 / 2, R ^ 3 * Real.sqrt 2 / 4] := by
  unfold direction_between_coordinates
  rw [to_vector_eq_ok (by norm_num) (by norm_num) (by norm_num) (by norm_num)]
  simp only [ok_bind]
  rw [to_vector_eq_ok (by norm_num) (by norm_num) (by norm_num) (by norm_num)]
  simp only [ok_bind]
  rw [cross_product_eq_ok (vec_value 45 0) (vec_value 45 90) rfl rfl]
  simp only [ok_bind]
  rw [cross_product_eq_ok (cross_value (vec_value 45 0) (vec_value 45 90))
    (vec_value 45 0) rfl rfl]
  simp only [ok_bind]
  rw [res_45_90, if_neg, pure_eq_ok]
  rw [mag_res_45_90]
  push_neg
  rw [Real.le_sqrt' (by norm_num)]
  unfold R
  norm_num

theorem direction_45_neg90 :
    direction_between_coordinates 45 0 45 (-90) = Except.ok
      [-(R ^ 3 * Real.sqrt 2 / 4), -(R ^ 3 * Real.sqrt 2 / 2), R ^ 3 * Real.sqrt 2 / 4] := by
  unfold direction_between_coordinates
  rw [to_vector_eq_ok (by norm_num) (by norm_num) (by norm_num) (by norm_num)]
  simp only [ok_bind]
  rw [to_vector_eq_ok (by norm_num) (by norm_num) (by norm_num) (by norm_num)]
  simp only [ok_bind]
  rw [cross_product_eq_ok (vec_value 45 0) (vec_value 45 (-90)) rfl rfl]
  simp only [ok_bind]
  rw [cross_product_eq_ok (cross_value (vec_value 45 0) (vec_value 45 (-90)))
    (vec_value 45 0) rfl rfl]
  simp only [ok_bind]
  rw [res_45_neg90, if_neg, pure_eq_ok]
  rw [mag_res_45_neg90]
  push_neg
  rw [Real.le_sqrt' (by norm_num)]
  unfold R
  norm_num

theorem angle_45_90 :
    angle_vectors [-(R ^ 3 * Real.sqrt 2 / 4), R ^ 3 * Real.sqrt 2 / 2,
        R ^ 3 * Real.sqrt 2 / 4] (north_value 45 0) =
      Except.ok (Real.arccos (57735 / 100000)) := by
  rw [north_value_45_0]
  obtain ⟨a, ha, -, -, -, hchar⟩ := angle_vectors_total
    [-(R ^ 3 * Real.sqrt 2 / 4), R ^ 3 * Real.sqrt 2 / 2, R ^ 3 * Real.sqrt 2 / 4]
    [-(R ^ 2 / 2), 0, R ^ 2 / 2] rfl
  have hm1 : magnitude [-(R ^ 3 * Real.sqrt 2 / 4), R ^ 3 * Real.sqrt 2 / 2,
      R ^ 3 * Real.sqrt 2 / 4] ≠ 0 := by
    rw [mag_res_45_90]
    refine ne_of_gt (Real.sqrt_pos.mpr ?_)
    unfold R
    norm_num
  have hm2 : magnitude [-(R ^ 2 / 2), 0, R ^ 2 / 2] ≠ 0 := by
    rw [mag_north_45_0]
    refine ne_of_gt (Real.sqrt_pos.mpr ?_)
    unfold R
    norm_num
  rw [ha, hchar hm1 hm2]
  have hdot : dot_value [-(R ^ 3 * Real.sqrt 2 / 4), R ^ 3 * Real.sqrt 2 / 2,
      R ^ 3 * Real.sqrt 2 / 4] [-(R ^ 2 / 2), 0, R ^ 2 / 2] = R ^ 5 * Real.sqrt 2 / 4 := by
    rw [dot_value_three]
    ring
  rw [hdot, mag_res_45_90, mag_north_45_0, ratio_45, pyRoundTo5_inv_sqrt3]

theorem angle_45_neg90 :
    angle_vectors [-(R ^ 3 * Real.sqrt 2 / 4), -(R ^ 3 * Real.sqrt 2 / 2),
        R ^ 3 * Real.sqrt 2 / 4] (north_value 45 0) =
      Except.ok (Real.arccos (57735 / 100000)) := by
  rw [north_value_45_0]
  obtain ⟨a, ha, -, -, -, hchar⟩ := angle_vectors_total
    [-(R ^ 3 * Real.sqrt 2 / 4), -(R ^ 3 * Real.sqrt 2 / 2), R ^ 3 * Real.sqrt 2 / 4]
    [-(R ^ 2 / 2), 0, R ^ 2 / 2] rfl
  have hm1 : magnitude [-(R ^ 3 * Real.sqrt 2 / 4), -(R ^ 3 * Real.sqrt 2 / 2),
      R ^ 3 * Real.sqrt 2 / 4] ≠ 0 := by
    rw [mag_res_45_neg90]
    refine ne_of_gt (Real.sqrt_pos.mpr ?_)
    unfold R
    norm_num
  have hm2 : magnitude [-(R ^ 2 / 2), 0, R ^ 2 / 2] ≠ 0 := by
    rw [mag_north_45_0]
    refine ne_of_gt (Real.sqrt_pos.mpr ?_)
    unfold R
    norm_num
  rw [ha, hchar hm1 hm2]
  have hdot : dot_value [-(R ^ 3 * Real.sqrt 2 / 4), -(R ^ 3 * Real.sqrt 2 / 2),
      R ^ 3 * Real.sqrt 2 / 4] [-(R ^ 2 / 2), 0, R ^ 2 / 2] = R ^ 5 * Real.sqrt 2 / 4 := by
    rw [dot_value_three]
    ring
  rw [hdot, mag_res_45_neg90, mag_north_45_0, ratio_45, pyRoundTo5_inv_sqrt3]

theorem bearing_45_90 :
    bearing_between_coordinates 45 0 45 90 =
      Except.ok (degrees (Real.arccos (57735 / 100000))) := by
  rw [bearing_unfold 45 0 45 90 (by norm_num) (by norm_num) (by norm_num) (by norm_num)
    direction_45_90 angle_45_90]
  rw [if_neg (by norm_num : ¬((90 : ℝ) < 0))]

theorem bearing_45_neg90 :
    bearing_between_coordinates 45 0 45 (-90) =
      Except.ok (360 - degrees (Real.arccos (57735 / 100000))) := by
  rw [bearing_unfold 45 0 45 (-90) (by norm_num) (by norm_num) (by norm_num) (by norm_num)
    direction_45_neg90 angle_45_neg90]
  rw [if_pos (by norm_num : ((-90 : ℝ) < 0))]

/-! ### Numeric bounds on the inverse cosine -/

theorem I_re_vals :
    (Complex.I ^ 0).re = 1 ∧ (Complex.I ^ 1).re = 0 ∧ (Complex.I ^ 2).re = -1 ∧
    (Complex.I ^ 3).re = 0 ∧ (Complex.I ^ 4).re = 1 ∧ (Complex.I ^ 5).re = 0 ∧
    (Complex.I ^ 6).re = -1 ∧ (Complex.I ^ 7).re = 0 ∧ (Complex.I ^ 8).re = 1 ∧
    (Complex.I ^ 9).re = 0 := by
  refine ⟨?_, ?_, ?_, ?_, ?_, ?_, ?_, ?_, ?_, ?_⟩ <;>
    simp [pow_succ, Complex.I_sq, Complex.ext_iff]

/-- Degree-8 Taylor approximation of cosine on `[-1, 1]`, with remainder from
the complex exponential series. -/
theorem cos_taylor_bound (x : ℝ) (hx : |x| ≤ 1) :
    |Real.cos x - (1 - x ^ 2 / 2 + x ^ 4 / 24 - x ^ 6 / 720 + x ^ 8 / 40320)| ≤
      11 / 36288000 := by
  have habs : Complex.abs (x * Complex.I) ≤ 1 := by
    rw [map_mul, Complex.abs_I, mul_one, Complex.abs_ofReal]
    exact hx
  have hb := Complex.exp_bound habs (n := 10) (by norm_num)
  have hterm : ∀ m : ℕ, ((x : ℂ) * Complex.I) ^ m / (m.factorial : ℂ) =
      ((x ^ m / m.factorial : ℝ) : ℂ) * Complex.I ^ m := by
    intro m
    push_cast
    rw [mul_pow]
    ring
  have hre : (∑ m ∈ Finset.range 10, ((x : ℂ) * Complex.I) ^ m / (m.factorial : ℂ)).re =
      1 - x ^ 2 / 2 + x ^ 4 / 24 - x ^ 6 / 720 + x ^ 8 / 40320 := by
    obtain ⟨h0, h1, h2, h3, h4, h5, h6, h7, h8, h9⟩ := I_re_vals
    simp only [Finset.sum_range_succ, Finset.sum_range_zero, hterm, Complex.add_re,
      Complex.zero_re, Complex.re_ofReal_mul, h0, h1, h2, h3, h4, h5, h6, h7, h8, h9]
    norm_num [Nat.factorial]
    ring
  have hcos : Real.cos x = (Complex.exp (x * Complex.I)).re :=
    (Complex.exp_ofReal_mul_I_re x).symm
  have key : |Real.cos x - (1 - x ^ 2 / 2 + x ^ 4 / 24 - x ^ 6 / 720 + x ^ 8 / 40320)| =
      |(Complex.exp (x * Complex.I) -
        ∑ m ∈ Finset.range 10, ((x : ℂ) * Complex.I) ^ m / (m.factorial : ℂ)).re| := by
    rw [Complex.sub_re, hre, hcos]
  rw [key]
  calc |(Complex.exp (x * Complex.I) -
        ∑ m ∈ Finset.range 10, ((x : ℂ) * Complex.I) ^ m / (m.factorial : ℂ)).re|
      ≤ Complex.abs (Complex.exp (x * Complex.I) -
        ∑ m ∈ Finset.range 10, ((x : ℂ) * Complex.I) ^ m / (m.factorial : ℂ)) :=
        Complex.abs_re_le_abs _
    _ ≤ Complex.abs ((x : ℂ) * Complex.I) ^ 10 *
        ((Nat.succ 10 : ℝ) * ((Nat.factorial 10 * 10 : ℕ) : ℝ)⁻¹) := by
        convert hb using 3
        norm_num
    _ ≤ 11 / 36288000 := by
        rw [map_mul, Complex.abs_I, mul_one, Complex.abs_ofReal]
        have h10 : |x| ^ 10 ≤ 1 := pow_le_one₀ (abs_nonneg x) hx
        norm_num [Nat.factorial]
        nlinarith [h10]

/-- The unsigned bearing `degrees(arccos 0.57735)` lies within `0.005` of the
reference computations at 54.735 and 54.745 degrees. -/
theorem unsigned_deg_bounds :
    54.735 ≤ degrees (Real.arccos (57735 / 100000)) ∧
      degrees (Real.arccos (57735 / 100000)) ≤ 54.745 := by
  unfold degrees
  have ht1 : (-1 : ℝ) ≤ 57735 / 100000 := by norm_num
  have ht2 : (57735 / 100000 : ℝ) ≤ 1 := by norm_num
  have hmem_t : (57735 / 100000 : ℝ) ∈ Set.Icc (-1 : ℝ) 1 := Set.mem_Icc.mpr ⟨ht1, ht2⟩
  have hpi_lo := Real.pi_gt_3141592
  have hpi_hi := Real.pi_lt_3141593
  have hpi_pos := Real.pi_pos
  constructor
  · have hθ0 : (0 : ℝ) ≤ 54.735 * Real.pi / 180 := by positivity
    have hθpi : (54.735 : ℝ) * Real.pi / 180 ≤ Real.pi := by nlinarith
    have hle : (54.735 : ℝ) * Real.pi / 180 ≤ 54.735 * 3.141593 / 180 := by nlinarith
    have hmon : Real.cos ((54.735 : ℝ) * 3.141593 / 180) ≤
        Real.cos ((54.735 : ℝ) * Real.pi / 180) :=
      Real.cos_le_cos_of_nonneg_of_le_pi hθ0 (by nlinarith) hle
    have htb := cos_taylor_bound ((54.735 : ℝ) * 3.141593 / 180)
      (by rw [abs_of_nonneg (by norm_num)]; norm_num)
    rw [abs_le] at htb
    have hcos1 : (57735 / 100000 : ℝ) ≤ Real.cos ((54.735 : ℝ) * Real.pi / 180) := by
      nlinarith [htb.1, hmon]
    have harc : (54.735 : ℝ) * Real.pi / 180 ≤ Real.arccos (57735 / 100000) := by
      have h := Real.strictAntiOn_arccos.antitoneOn hmem_t
        (Set.mem_Icc.mpr ⟨Real.neg_one_le_cos _, Real.cos_le_one _⟩) hcos1
      rwa [Real.arccos_cos hθ0 hθpi] at h
    rw [le_div_iff₀ hpi_pos]
    nlinarith [harc]
  · have hθ0 : (0 : ℝ) ≤ 54.745 * Real.pi / 180 := by positivity
    have hθpi : (54.745 : ℝ) * Real.pi / 180 ≤ Real.pi := by nlinarith
    have hle : (54.745 : ℝ) * 3.141592 / 180 ≤ 54.745 * Real.pi / 180 := by nlinarith
    have hmon : Real.cos ((54.745 : ℝ) * Real.pi / 180) ≤
        Real.cos ((54.745 : ℝ) * 3.141592 / 180) :=
      Real.cos_le_cos_of_nonneg_of_le_pi (by norm_num) hθpi hle
    have htb := cos_taylor_bound ((54.745 : ℝ) * 3.141592 / 180)
      (by rw [abs_of_nonneg (by norm_num)]; norm_num)
    rw [abs_le] at htb
    have hcos2 : Real.cos ((54.745 : ℝ) * Real.pi / 180) ≤ 57735 / 100000 := by
      nlinarith [htb.2, hmon]
    have harc : Real.arccos (57735 / 100000) ≤ (54.745 : ℝ) * Real.pi / 180 := by
      have h := Real.strictAntiOn_arccos.antitoneOn
        (Set.mem_Icc.mpr ⟨Real.neg_one_le_cos _, Real.cos_le_one _⟩) hmem_t hcos2
      rwa [Real.arccos_cos hθ0 hθpi] at h
    rw [div_le_iff₀ hpi_pos]
    nlinarith [harc]

/-- C3: `bearing_between_coordinates` follows the §4.5 algorithm — the unsigned
bearing `degrees(angle_vectors(w, north_vector))` is in `[0, 180]` and the
result is `360` minus it exactly when `long2 < long1`, itself otherwise; in
particular the bearing at `(45,0) → (45,90)` is within `0.005` of `54.74` and
at `(45,0) → (45,-90)` within `0.005` of `305.26`. -/
theorem bearing_refines_spec :
    (∀ lat1 long1 lat2 long2 : ℝ,
      -90 ≤ lat1 → lat1 ≤ 90 → -180 ≤ long1 → long1 ≤ 180 →
      -90 ≤ lat2 → lat2 ≤ 90 → -180 ≤ long2 → long2 ≤ 180 →
      ∃ w a, direction_between_coordinates lat1 long1 lat2 long2 = Except.ok w ∧
        angle_vectors w (north_value lat1 long1) = Except.ok a ∧
        0 ≤ degrees a ∧ degrees a ≤ 180 ∧
        bearing_between_coordinates lat1 long1 lat2 long2 =
          Except.ok (if long2 < long1 then 360 - degrees a else degrees a)) ∧
    (∃ b, bearing_between_coordinates 45 0 45 90 = Except.ok b ∧ |b - 54.74| ≤ 0.005) ∧
    (∃ b, bearing_between_coordinates 45 0 45 (-90) = Except.ok b ∧
      |b - 305.26| ≤ 0.005) := by
  refine ⟨?_, ?_, ?_⟩
  · intro lat1 long1 lat2 long2 h1 h2 h3 h4 h5 h6 h7 h8
    obtain ⟨w, hdir, hwlen⟩ := direction_ok lat1 long1 lat2 long2 h1 h2 h3 h4 h5 h6 h7 h8
    obtain ⟨a, ha, ha0, hapi, -, -⟩ := angle_vectors_total w (north_value lat1 long1)
      (by rw [hwlen, north_value_length])
    exact ⟨w, a, hdir, ha, degrees_nonneg ha0, degrees_le_180 hapi,
      bearing_unfold lat1 long1 lat2 long2 h1 h2 h3 h4 hdir ha⟩
  · refine ⟨_, bearing_45_90, ?_⟩
    obtain ⟨hlo, hhi⟩ := unsigned_deg_bounds
    rw [abs_le]
    constructor <;> linarith
  · refine ⟨_, bearing_45_neg90, ?_⟩
    obtain ⟨hlo, hhi⟩ := unsigned_deg_bounds
    rw [abs_le]
    constructor <;> linarith

theorem bearing_refines_spec_witness :
    ∃ w a, direction_between_coordinates 0 0 0 0 = Except.ok w ∧
      angle_vectors w (north_value 0 0) = Except.ok a ∧
      0 ≤ degrees a ∧ degrees a ≤ 180 ∧
      bearing_between_coordinates 0 0 0 0 =
        Except.ok (if (0 : ℝ) < 0 then 360 - degrees a else degrees a) :=
  bearing_refines_spec.1 0 0 0 0 (by norm_num) (by norm_num) (by norm_num) (by norm_num)
    (by norm_num) (by norm_num) (by norm_num) (by norm_num)

end Geo
